import Mathlib

/-!
Verification development for the kiro-strands code-analysis system.

The repository ships the CDK infrastructure stack (lib/kiro-strands-stack.ts),
its unit tests, the README, and the design documents of the analysis pipeline.
The Lambda implementation of the pipeline itself (lambda/agent_handler.py) is
not part of the repository, so the pipeline components (Input Validator,
Content Store Client, Model Client, Report Formatter, Pipeline Orchestrator)
are modelled from the specification; the CDK stack, the EventBridge rule and
the embedded unit test expectations are embedded from the TypeScript source.
-/

namespace KiroStrands

/-! ## Filename extensions and the supported-type allow-list -/

/-- Extension of a filename at the character-list level: the segment from the
last dot (inclusive) to the end, or the empty list when the name has no dot. -/
def extensionData (ds : List Char) : List Char :=
  if '.' ∈ ds then '.' :: (ds.reverse.takeWhile (fun c => !(c == '.'))).reverse else []

/-- Extension of a filename, dot included; empty when the filename has no dot. -/
def extensionOf (filename : String) : String :=
  String.mk (extensionData filename.data)

/-- Modelled from the spec: the fixed allow-list of the Input Validator
(spec section 4.2, a fixed allow-list of source-code and structured-text
extensions). The validator implementation, lambda/agent_handler.py, is not in
the repository; the enumeration follows the Supported File Types list of the
README (src/unnamed/part_000, line 145) and the deployment trigger suffixes. -/
def supportedExtensions : List String :=
  [".py", ".js", ".ts", ".java", ".cpp", ".c", ".cs", ".php", ".rb", ".go",
   ".rs", ".kt", ".swift", ".scala", ".r", ".sql", ".sh", ".yaml", ".yml",
   ".json", ".xml", ".html", ".css", ".md", ".txt"]

/-- Modelled from the spec: isSupportedType of the Input Validator (spec
section 4.2) answers whether the filename extension is in the fixed
allow-list. The validator implementation is not in the repository. -/
def isSupportedType (filename : String) : Bool :=
  decide (extensionOf filename ∈ supportedExtensions)

/-- The nine supported file types listed by the CodeValidator component of the
design document (src/.kiro/specs/code-analysis-agent/design.md, line 131). -/
def designDocFileTypes : List String :=
  [".py", ".js", ".java", ".cpp", ".cs", ".go", ".rb", ".php", ".ts"]

/-! ## The EventBridge rule of the CDK stack (lib/kiro-strands-stack.ts) -/

/-- The 25 object-key suffixes configured on the s3EventRule event pattern in
lib/kiro-strands-stack.ts, lines 119 to 145, in source order. -/
def s3EventRuleSuffixes : List String :=
  [".py", ".js", ".ts", ".java", ".cpp", ".c", ".cs", ".php", ".rb", ".go",
   ".rs", ".kt", ".swift", ".scala", ".r", ".sql", ".sh", ".yaml", ".yml",
   ".json", ".xml", ".html", ".css", ".md", ".txt"]

/-- An S3 event as matched by the EventBridge rule: source, detail-type,
bucket name and object key. -/
structure S3Event where
  source : String
  detailType : String
  bucketName : String
  objectKey : String

/-- EventBridge suffix matching: the object key ends with the given suffix. -/
def keyEndsWith (key sfx : String) : Bool :=
  decide (sfx.data <:+ key.data)

/-- The event pattern of s3EventRule (lib/kiro-strands-stack.ts, lines 108 to
149): source aws.s3, detail-type Object Created, the input bucket, and an
object key carrying one of the 25 configured suffixes. -/
def s3EventRuleMatches (inputBucketName : String) (e : S3Event) : Bool :=
  (e.source == "aws.s3") && (e.detailType == "Object Created") &&
    (e.bucketName == inputBucketName) &&
    s3EventRuleSuffixes.any (fun s => keyEndsWith e.objectKey s)

/-- Helper used to state that an allow-list entry is a dot followed by a
dot-free tail, which is what makes suffix matching agree with extension
lookup. -/
def dottedSuffix (s : String) : Bool :=
  (s.data.head? == some '.') && decide ('.' ∉ s.data.tail)

/-! ## Error taxonomy (spec section 7) -/

/-- The closed enumeration of failure kinds of the pipeline (spec section 7). -/
inductive ErrorKind where
  | NotFound
  | AccessDenied
  | Transient
  | UnsupportedType
  | PayloadTooLarge
  | Throttled
  | Unavailable
  | CircuitOpen
  | ModelInvocationError
  | InvalidMetadata
  | Timeout
  deriving DecidableEq

/-! ## Report Formatter (spec section 4.4, design.md SpecificationGenerator) -/

/-- Metadata handed to the formatter; filename and timestamp are required,
their absence is the only formatting failure. -/
structure ReportMetadata where
  filename : Option String
  timestamp : Option String
  language : String
  deriving DecidableEq

/-- The five fixed section titles of the report, in order (spec section 3;
heading texts from the design.md output format). -/
def sectionTitles : List String :=
  ["Code Purpose", "Main Functions and Components", "Data Structures",
   "Dependencies and Imports", "Architectural Patterns"]

/-- A line opens a second-level markdown section when it begins with two hash
marks and a space. -/
def isSectionHeading (l : String) : Bool :=
  decide (l.data.take 3 = ['#', '#', ' '])

/-- Split a character list at newline characters. -/
def linesData (ds : List Char) : List (List Char) :=
  ds.foldr
    (fun c acc =>
      if c = '\n' then [] :: acc
      else
        match acc with
        | [] => [[c]]
        | l :: ls => (c :: l) :: ls)
    [[]]

/-- Split a string into its lines. -/
def splitLines (s : String) : List String :=
  (linesData s.data).map String.mk

/-- Look for the heading of the given section in the model output lines and
return the lines that follow it, up to the next second-level heading. -/
def extractSection : List String → String → Option (List String)
  | [], _ => none
  | l :: rest, t =>
    if l = "## " ++ t then some (rest.takeWhile (fun x => !(isSectionHeading x)))
    else extractSection rest t

/-- Modelled from the spec: the placeholder the formatter inserts for a
section the model output does not provide (spec section 4.4). -/
def placeholderLine : String := "Not provided by analysis"

/-- The block the formatter emits for one required section: the heading, then
either the content preserved from the model output or the placeholder. -/
def sectionBlock (ls : List String) (t : String) : List String :=
  ("## " ++ t) :: ((extractSection ls t).getD [placeholderLine])

/-- The metadata header block of the report (design.md output format):
title line, analysis date, original file and detected language. -/
def headerLines (f ts lang : String) : List String :=
  ["# Design Specification for " ++ f,
   "",
   "**Analysis Date**: " ++ ts,
   "**Original File**: " ++ f,
   "**Programming Language**: " ++ lang,
   ""]

/-- Modelled from the spec: render of the Report Formatter (spec section 4.4).
The formatter implementation is not in the repository. A report is a list of
markdown lines: the metadata header followed by the five fixed sections;
missing filename or timestamp is the only error. -/
def render (analysisText : String) (md : ReportMetadata) :
    Except ErrorKind (List String) :=
  match md.filename, md.timestamp with
  | some f, some ts =>
    .ok (headerLines f ts md.language ++
      (sectionTitles.map (fun t => sectionBlock (splitLines analysisText) t)).flatten)
  | _, _ => .error .InvalidMetadata

/-! ## Language detection (spec section 4.2) -/

/-- Extension-to-language lookup table used by detectLanguage. -/
def languageTable : List (String × String) :=
  [(".py", "Python"), (".js", "JavaScript"), (".ts", "TypeScript"),
   (".java", "Java"), (".cpp", "C++"), (".c", "C"), (".cs", "C#"),
   (".php", "PHP"), (".rb", "Ruby"), (".go", "Go"), (".rs", "Rust"),
   (".kt", "Kotlin"), (".swift", "Swift"), (".scala", "Scala"), (".r", "R"),
   (".sql", "SQL"), (".sh", "Shell"), (".yaml", "YAML"), (".yml", "YAML"),
   (".json", "JSON"), (".xml", "XML"), (".html", "HTML"), (".css", "CSS"),
   (".md", "Markdown"), (".txt", "Text")]

/-- Modelled from the spec: detectLanguage of the Input Validator (spec
section 4.2): extension lookup first, then a shebang content heuristic,
with the fallback unknown; it never fails. -/
def detectLanguage (content filename : String) : String :=
  match languageTable.lookup (extensionOf filename) with
  | some lang => lang
  | none =>
    let firstLine := (splitLines content).headD ""
    if firstLine.data.take 2 = ['#', '!'] then
      if "python".data <:+: firstLine.data then "Python" else "Shell"
    else "unknown"

/-! ## Pipeline Orchestrator (spec section 4.5) -/

/-- The request of one pipeline invocation (spec section 3). -/
structure AnalysisRequest where
  sourceContainer : String
  sourceKey : String
  destinationContainer : String
  deriving DecidableEq

/-- Content fetched from the source store (spec section 3). -/
structure RetrievedContent where
  content : String
  sizeBytes : Nat
  deriving DecidableEq

/-- Pipeline configuration: the content size ceiling in bytes. -/
structure PipelineConfig where
  maxSizeBytes : Nat
  deriving DecidableEq

/-- Default configuration: 1 MiB size ceiling (spec section 4.2). -/
def defaultConfig : PipelineConfig :=
  { maxSizeBytes := 1048576 }

/-- Terminal status of a run. -/
inductive RunStatus where
  | success
  | error
  deriving DecidableEq

/-- The outcome record returned once per invocation (spec section 3). -/
structure AnalysisOutcome where
  status : RunStatus
  outputKey : Option String
  errorKind : Option ErrorKind
  deriving DecidableEq

/-- Externally visible effects of one run: how many times the model service
was invoked and which documents were written to the destination store. -/
structure PipelineEffects where
  modelCalls : Nat
  writes : List (String × String × List String)
  deriving DecidableEq

/-- Failures a store operation can surface to the orchestrator after its own
retries (spec sections 4.1 and 7: origin source fetch or store ops). -/
inductive StoreFault where
  | notFound
  | accessDenied
  | transient
  | timeout
  deriving DecidableEq

/-- Error kind reported for a store fault (spec section 7). -/
def storeFaultKind : StoreFault → ErrorKind
  | .notFound => .NotFound
  | .accessDenied => .AccessDenied
  | .transient => .Transient
  | .timeout => .Timeout

/-- Failures a model call can surface to the orchestrator after its own
retries (spec sections 4.3 and 7: origin model call). -/
inductive ModelFault where
  | throttled
  | unavailable
  | circuitOpen
  | invocationError
  | timeout
  deriving DecidableEq

/-- Error kind reported for a model fault (spec section 7). -/
def modelFaultKind : ModelFault → ErrorKind
  | .throttled => .Throttled
  | .unavailable => .Unavailable
  | .circuitOpen => .CircuitOpen
  | .invocationError => .ModelInvocationError
  | .timeout => .Timeout

/-- Output key pattern of the destination write
(design.md S3FileWriter, original filename plus design_spec plus timestamp). -/
def outputKeyFor (sourceKey ts : String) : String :=
  sourceKey ++ "_design_spec_" ++ ts ++ ".md"

/-- A failed run: terminal error outcome, no write. -/
def failRun (e : ErrorKind) (modelCalls : Nat) : AnalysisOutcome × PipelineEffects :=
  ({ status := .error, outputKey := none, errorKind := some e },
   { modelCalls := modelCalls, writes := [] })

/-- Modelled from the spec: the Pipeline Orchestrator (spec sections 2 and
4.5), fetch, validate, analyze, format, persist, with early exit on failure.
The orchestrator implementation is not in the repository. The collaborators
are passed as resolved results: the fetch outcome, the model outcome and the
destination put outcome; the timestamp is injected by the caller. -/
def runPipeline (cfg : PipelineConfig) (req : AnalysisRequest)
    (fetchResult : Except StoreFault RetrievedContent)
    (modelResult : Except ModelFault String)
    (putResult : Except StoreFault Unit)
    (ts : String) : AnalysisOutcome × PipelineEffects :=
  match fetchResult with
  | .error e => failRun (storeFaultKind e) 0
  | .ok content =>
    if isSupportedType req.sourceKey then
      if content.sizeBytes ≤ cfg.maxSizeBytes then
        match modelResult with
        | .error e => failRun (modelFaultKind e) 1
        | .ok analysisText =>
          match render analysisText
              { filename := some req.sourceKey, timestamp := some ts,
                language := detectLanguage content.content req.sourceKey } with
          | .error _ => failRun .InvalidMetadata 1
          | .ok doc =>
            match putResult with
            | .error e => failRun (storeFaultKind e) 1
            | .ok _ =>
              ({ status := .success,
                 outputKey := some (outputKeyFor req.sourceKey ts),
                 errorKind := none },
               { modelCalls := 1,
                 writes := [(req.destinationContainer,
                             outputKeyFor req.sourceKey ts, doc)] })
      else failRun .PayloadTooLarge 0
    else failRun .UnsupportedType 0

/-! ## Content Store Client retries (spec section 4.1) -/

/-- Up to three attempts per store operation (spec section 4.1). -/
def storeMaxAttempts : Nat := 3

/-- Cap of the exponential store backoff, in seconds. -/
def storeBackoffCapSeconds : Nat := 4

/-- Backoff before retry number retryIdx plus one: base one second, doubling,
capped (spec section 4.1). -/
def storeBackoffSeconds (retryIdx : Nat) : Nat :=
  min (2 ^ retryIdx) storeBackoffCapSeconds

/-- Only Transient store failures are retried (spec section 4.1). -/
def storeRetryable : ErrorKind → Bool
  | .Transient => true
  | _ => false

/-- Modelled from the spec: a retried operation of the Content Store Client
(spec section 4.1, up to three attempts, exponential backoff on Transient
only). The client implementation is not in the repository. The service is a
map from attempt index to result; the return value carries the final result,
the number of attempts issued and the backoff delays slept between them. -/
def storeOp {α : Type} (svc : Nat → Except ErrorKind α) :
    Except ErrorKind α × Nat × List Nat :=
  match svc 0 with
  | .ok v => (.ok v, 1, [])
  | .error e0 =>
    if storeRetryable e0 then
      match svc 1 with
      | .ok v => (.ok v, 2, [storeBackoffSeconds 0])
      | .error e1 =>
        if storeRetryable e1 then
          (svc 2, 3, [storeBackoffSeconds 0, storeBackoffSeconds 1])
        else (.error e1, 2, [storeBackoffSeconds 0])
    else (.error e0, 1, [])

/-- Fetch of the Content Store Client: a retried store operation
(spec section 4.1). -/
def fetchOp (svc : Nat → Except ErrorKind RetrievedContent) :
    Except ErrorKind RetrievedContent × Nat × List Nat :=
  storeOp svc

/-- Put of the Content Store Client: a retried store operation. -/
def putOp (svc : Nat → Except ErrorKind Unit) :
    Except ErrorKind Unit × Nat × List Nat :=
  storeOp svc

/-- The retry contract of a store operation (spec section 4.1): at most three
attempts; the delays slept are exactly the exponential backoff sequence, one
between consecutive attempts; every retried attempt had failed with Transient;
and a non-retryable first failure ends the operation at once with no delay. -/
def storeRetryContract {α : Type} (res : Except ErrorKind α × Nat × List Nat)
    (svc : Nat → Except ErrorKind α) : Prop :=
  res.2.1 ≤ storeMaxAttempts ∧
  res.2.2 = (List.range (res.2.1 - 1)).map storeBackoffSeconds ∧
  (∀ i, i + 1 < res.2.1 → svc i = .error .Transient) ∧
  (∀ e, svc 0 = .error e → e ≠ .Transient → res.2.1 = 1 ∧ res.2.2 = [])

/-! ## Model Client and circuit breaker (spec section 4.3) -/

/-- A response of the model service to a single request. -/
inductive ModelServiceResponse where
  | ok (text : String) (tokens : Nat)
  | throttled
  | unavailable
  | badRequest
  deriving DecidableEq

/-- Throttled and Unavailable responses are retryable (spec section 4.3). -/
def modelRetryable : ModelServiceResponse → Bool
  | .throttled => true
  | .unavailable => true
  | _ => false

/-- Error kind surfaced for a failed model response (spec section 4.3). -/
def responseError : ModelServiceResponse → ErrorKind
  | .throttled => .Throttled
  | .unavailable => .Unavailable
  | _ => .ModelInvocationError

/-- Up to three attempts per model call (spec section 4.3). -/
def modelMaxAttempts : Nat := 3

/-- The breaker trips after five consecutive failed calls (spec section 4.3). -/
def circuitFailureThreshold : Nat := 5

/-- The circuit breaker: the running consecutive-failure counter and, once
tripped, the time the breaker opened. -/
structure CircuitBreakerState where
  consecutiveFailures : Nat
  openedAt : Option Nat
  deriving DecidableEq

/-- Fresh breaker: no failures, closed. -/
def initialBreaker : CircuitBreakerState :=
  { consecutiveFailures := 0, openedAt := none }

/-- The breaker is open at the given instant when it tripped less than the
cool-down period ago. -/
def breakerOpen (coolDown : Nat) (st : CircuitBreakerState) (now : Nat) : Bool :=
  match st.openedAt with
  | none => false
  | some t => decide (now < t + coolDown)

/-- Retry loop of one model call (spec section 4.3, up to three attempts,
retrying only Throttled and Unavailable responses); the result carries the
final response and the number of requests issued to the service. -/
def modelAttempts (svc : Nat → ModelServiceResponse) : ModelServiceResponse × Nat :=
  if modelRetryable (svc 0) then
    if modelRetryable (svc 1) then (svc 2, 3) else (svc 1, 2)
  else (svc 0, 1)

/-- Outcome of one model call as seen by the orchestrator. -/
inductive ModelCallResult where
  | success (text : String)
  | failure (e : ErrorKind)
  deriving DecidableEq

/-- Modelled from the spec: one call of the Model Client (spec section 4.3).
The client implementation is not in the repository. While the breaker is open
the call fails fast with CircuitOpen and issues no request; otherwise the
retry loop runs, success resets the failure counter, and a failed call
increments it, tripping the breaker at the threshold. The third component
counts requests actually issued to the model service. -/
def modelCall (coolDown : Nat) (st : CircuitBreakerState) (now : Nat)
    (svc : Nat → ModelServiceResponse) :
    ModelCallResult × CircuitBreakerState × Nat :=
  if breakerOpen coolDown st now then (.failure .CircuitOpen, st, 0)
  else
    match modelAttempts svc with
    | (.ok text _, n) => (.success text, initialBreaker, n)
    | (r, n) =>
      let f := st.consecutiveFailures + 1
      if circuitFailureThreshold ≤ f then
        (.failure (responseError r), { consecutiveFailures := f, openedAt := some now }, n)
      else
        (.failure (responseError r), { consecutiveFailures := f, openedAt := none }, n)

/-- Run a sequence of model calls, threading the breaker state; each call is
an instant paired with the service behaviour seen by that call. -/
def runModelCalls (coolDown : Nat) :
    CircuitBreakerState → List (Nat × (Nat → ModelServiceResponse)) →
    CircuitBreakerState × List (ModelCallResult × Nat)
  | st, [] => (st, [])
  | st, (now, svc) :: rest =>
    let step := modelCall coolDown st now svc
    let tail := runModelCalls coolDown step.2.1 rest
    (tail.1, (step.1, step.2.2) :: tail.2)

/-- A model service that answers Unavailable to every request. -/
def alwaysUnavailable : Nat → ModelServiceResponse :=
  fun _ => .unavailable

/-! ## The two stack definitions and the embedded unit test (C10) -/

/-- Input bucket name of the stack in lib/kiro-strands-stack.ts, line 64. -/
def inputBucketName (env acct : String) : String :=
  "code-analysis-input-" ++ env ++ "-" ++ acct

/-- Output bucket name of the stack in lib/kiro-strands-stack.ts, line 78. -/
def outputBucketName (env acct : String) : String :=
  "code-analysis-output-" ++ env ++ "-" ++ acct

/-- ARN of an S3 bucket with the given name. -/
def bucketArn (name : String) : String :=
  "arn:aws:s3:::" ++ name

/-- An IAM policy statement: actions and resources. -/
structure PolicyStatement where
  actions : List String
  resources : List String
  deriving DecidableEq

/-- The S3 policy statement of lib/kiro-strands-stack.ts, lines 91 to 105:
GetObject, PutObject and ListBucket scoped to the input and output bucket
ARNs and their contents. -/
def libStackS3Policy (env acct : String) : PolicyStatement :=
  { actions := ["s3:GetObject", "s3:PutObject", "s3:ListBucket"],
    resources :=
      [bucketArn (inputBucketName env acct),
       bucketArn (inputBucketName env acct) ++ "/*",
       bucketArn (outputBucketName env acct),
       bucketArn (outputBucketName env acct) ++ "/*"] }

/-- The S3 policy statement of the stack copy appended at the end of
src/.kiro/specs/code-analysis-agent/requirements.md, lines 518 to 528:
the same actions granted on every resource. -/
def appendedStackS3Policy : PolicyStatement :=
  { actions := ["s3:GetObject", "s3:PutObject", "s3:ListBucket"],
    resources := ["*"] }

/-- The S3 resource the embedded CDK unit test expects for the S3 statement
(test IAM Permissions for Bedrock and S3, lib/kiro-strands-stack.ts embedded
test file, lines 294 to 316). -/
def testExpectedS3Resources : List String := ["*"]

/-- Summary of the synthesized template of a stack definition: its S3 policy
statement and whether it defines the buckets and the EventBridge rule. -/
structure StackSummary where
  s3Policy : PolicyStatement
  hasInputBucket : Bool
  hasOutputBucket : Bool
  hasS3EventRule : Bool
  deriving DecidableEq

/-- Template summary of the stack in lib/kiro-strands-stack.ts: scoped S3
policy, both buckets, and the EventBridge rule. -/
def libStackSummary (env acct : String) : StackSummary :=
  { s3Policy := libStackS3Policy env acct,
    hasInputBucket := true,
    hasOutputBucket := true,
    hasS3EventRule := true }

/-- Template summary of the stack copy appended after requirements.md:
wildcard S3 policy, no buckets, no EventBridge rule. -/
def appendedStackSummary : StackSummary :=
  { s3Policy := appendedStackS3Policy,
    hasInputBucket := false,
    hasOutputBucket := false,
    hasS3EventRule := false }

/-! ## Helper lemmas: extensions versus suffix matching -/

theorem takeWhile_all_append {α : Type} (p : α → Bool) (l₁ : List α) (a : α)
    (l₂ : List α) (h : ∀ x ∈ l₁, p x = true) (ha : p a = false) :
    (l₁ ++ a :: l₂).takeWhile p = l₁ := by
  induction l₁ with
  | nil => simp [List.takeWhile_cons, ha]
  | cons x xs ih =>
    have hx : p x = true := h x (by simp)
    simp only [List.cons_append, List.takeWhile_cons, hx, if_true]
    rw [ih (fun y hy => h y (by simp [hy]))]

theorem dropWhile_eq_cons_head_false {α : Type} (p : α → Bool) (l : List α)
    (a : α) (dt : List α) (h : l.dropWhile p = a :: dt) : p a = false := by
  induction l with
  | nil => simp [List.dropWhile] at h
  | cons x xs ih =>
    rw [List.dropWhile_cons] at h
    by_cases hx : p x = true
    · rw [if_pos hx] at h; exact ih h
    · rw [if_neg hx] at h
      injection h with h1 _
      rw [← h1]
      simpa using hx

theorem extensionData_of_suffix (pre t : List Char) (ht : '.' ∉ t) :
    extensionData (pre ++ '.' :: t) = '.' :: t := by
  have hmem : '.' ∈ pre ++ '.' :: t := List.mem_append_right _ (List.mem_cons_self _ _)
  rw [extensionData, if_pos hmem]
  have hrev : (pre ++ '.' :: t).reverse = t.reverse ++ '.' :: pre.reverse := by
    simp [List.reverse_append]
  rw [hrev, takeWhile_all_append _ _ _ _ ?hall ?hdot]
  · simp
  case hall =>
    intro x hx
    have hxt : x ∈ t := List.mem_reverse.mp hx
    have hxne : x ≠ '.' := fun hEq => ht (hEq ▸ hxt)
    simp [hxne]
  case hdot => simp

theorem extensionData_suffix (ds : List Char) (h : '.' ∈ ds) :
    ∃ pre, pre ++ extensionData ds = ds := by
  have hwd := List.takeWhile_append_dropWhile
    (p := fun c => !(c == '.')) (l := ds.reverse)
  have hdne : ds.reverse.dropWhile (fun c => !(c == '.')) ≠ [] := by
    intro hnil
    have hw : ds.reverse.takeWhile (fun c => !(c == '.')) = ds.reverse := by
      rw [hnil, List.append_nil] at hwd; exact hwd
    have hmem : '.' ∈ ds.reverse := List.mem_reverse.mpr h
    have hpd := List.mem_takeWhile_imp (p := fun c => !(c == '.'))
      (l := ds.reverse) (x := '.') (by rw [hw]; exact hmem)
    simp at hpd
  obtain ⟨a, dt, hsplit⟩ := List.exists_cons_of_ne_nil hdne
  have ha : a = '.' := by
    have hfa := dropWhile_eq_cons_head_false _ _ _ _ hsplit
    simpa using hfa
  refine ⟨dt.reverse, ?_⟩
  have h1 : ds.reverse = ds.reverse.takeWhile (fun c => !(c == '.')) ++ '.' :: dt := by
    conv_lhs => rw [← hwd]
    rw [hsplit, ha]
  have h2 := congrArg List.reverse h1
  rw [List.reverse_reverse] at h2
  rw [extensionData, if_pos h]
  conv_rhs => rw [h2]
  simp [List.reverse_append]

theorem keyEndsWith_iff_extensionOf {t : List Char} (key s : String)
    (hs : s.data = '.' :: t) (ht : '.' ∉ t) :
    keyEndsWith key s = true ↔ extensionOf key = s := by
  rw [keyEndsWith, decide_eq_true_iff]
  constructor
  · rintro ⟨pre, hpre⟩
    rw [hs] at hpre
    apply String.ext
    show extensionData key.data = s.data
    rw [hs, ← hpre]
    exact extensionData_of_suffix pre t ht
  · intro hext
    have hdata : extensionData key.data = '.' :: t := by
      have hc := congrArg String.data hext
      rw [hs] at hc
      exact hc
    have hdot : '.' ∈ key.data := by
      by_contra hnd
      rw [extensionData, if_neg hnd] at hdata
      cases hdata
    obtain ⟨pre, hpre⟩ := extensionData_suffix key.data hdot
    rw [hdata] at hpre
    exact ⟨pre, by rw [hs]; exact hpre⟩

theorem dottedSuffix_spec {s : String} (h : dottedSuffix s = true) :
    ∃ t, s.data = '.' :: t ∧ '.' ∉ t := by
  rw [dottedSuffix, Bool.and_eq_true, beq_iff_eq, decide_eq_true_iff] at h
  obtain ⟨h1, h2⟩ := h
  refine ⟨s.data.tail, ?_, h2⟩
  cases hd : s.data with
  | nil => rw [hd] at h1; cases h1
  | cons c cs =>
    rw [hd] at h1
    injection h1 with h1
    simp [h1]

theorem supported_dottedSuffix : ∀ s ∈ supportedExtensions, dottedSuffix s = true := by
  decide

theorem ruleSuffixes_eq_supported : s3EventRuleSuffixes = supportedExtensions := rfl

theorem any_keyEndsWith_eq_isSupportedType (key : String) :
    s3EventRuleSuffixes.any (fun s => keyEndsWith key s) = isSupportedType key := by
  rw [Bool.eq_iff_iff, List.any_eq_true, isSupportedType, decide_eq_true_iff]
  constructor
  · rintro ⟨s, hsmem, hk⟩
    have hsmem' : s ∈ supportedExtensions := ruleSuffixes_eq_supported ▸ hsmem
    obtain ⟨t, hs, ht⟩ := dottedSuffix_spec (supported_dottedSuffix s hsmem')
    rw [← (keyEndsWith_iff_extensionOf key s hs ht).mp hk] at hsmem'
    exact hsmem'
  · intro hmem
    refine ⟨extensionOf key, ruleSuffixes_eq_supported ▸ hmem, ?_⟩
    obtain ⟨t, hs, ht⟩ := dottedSuffix_spec (supported_dottedSuffix _ hmem)
    exact (keyEndsWith_iff_extensionOf key _ hs ht).mpr rfl

/-! ## Helper lemmas: the Report Formatter -/

theorem isSectionHeading_title (t : String) : isSectionHeading ("## " ++ t) = true := by
  rw [isSectionHeading, String.data_append, List.take_append_of_le_length (by decide)]
  decide

theorem header_not_heading (f ts lang : String) :
    ∀ l ∈ headerLines f ts lang, isSectionHeading l = false := by
  intro l hl
  simp only [headerLines, List.mem_cons, List.not_mem_nil, or_false] at hl
  rcases hl with rfl | rfl | rfl | rfl | rfl | rfl <;>
    first
      | decide
      | (rw [isSectionHeading, String.data_append,
             List.take_append_of_le_length (by decide)]
         decide)

theorem extractSection_not_heading (ls : List String) (t : String) (b : List String)
    (h : extractSection ls t = some b) : ∀ l ∈ b, isSectionHeading l = false := by
  induction ls with
  | nil => cases h
  | cons x xs ih =>
    rw [extractSection] at h
    by_cases hx : x = "## " ++ t
    · rw [if_pos hx] at h
      injection h with h
      intro l hl
      rw [← h] at hl
      have hm := List.mem_takeWhile_imp hl
      simpa using hm
    · rw [if_neg hx] at h
      exact ih h

theorem filter_sectionBlock (ls : List String) (t : String) :
    (sectionBlock ls t).filter isSectionHeading = ["## " ++ t] := by
  rw [sectionBlock]
  rcases hx : extractSection ls t with _ | b
  · have hp : isSectionHeading placeholderLine = false := by decide
    simp [Option.getD_none, List.filter_cons, isSectionHeading_title, hp]
  · have hnil : b.filter isSectionHeading = [] := by
      rw [List.filter_eq_nil_iff]
      intro l hl
      rw [extractSection_not_heading ls t b hx l hl]
      simp
    simp [Option.getD_some, List.filter_cons, isSectionHeading_title, hnil]

theorem flatten_map_singleton {α β : Type} (L : List α) (f : α → β) :
    (L.map (fun a => [f a])).flatten = L.map f := by
  induction L with
  | nil => rfl
  | cons a as ih => simp only [List.map_cons, List.flatten_cons, ih, List.singleton_append]

theorem infix_of_mem_flatten {α : Type} (L : List (List α)) (l : List α) (h : l ∈ L) :
    l <:+: L.flatten := by
  induction L with
  | nil => cases h
  | cons a as ih =>
    rcases List.mem_cons.mp h with rfl | h
    · exact ⟨[], as.flatten, by simp⟩
    · obtain ⟨s, u, hsu⟩ := ih h
      exact ⟨a ++ s, u, by rw [List.flatten_cons, ← hsu]; simp [List.append_assoc]⟩

theorem infix_append_left {α : Type} (pre l L : List α) (h : l <:+: L) :
    l <:+: pre ++ L := by
  obtain ⟨s, u, hsu⟩ := h
  exact ⟨pre ++ s, u, by rw [← hsu]; simp [List.append_assoc]⟩

theorem render_headings (analysisText f ts lang : String) :
    (headerLines f ts lang ++
        (sectionTitles.map (fun t => sectionBlock (splitLines analysisText) t)).flatten).filter
      isSectionHeading = sectionTitles.map (fun t => "## " ++ t) := by
  rw [List.filter_append]
  have h1 : (headerLines f ts lang).filter isSectionHeading = [] := by
    rw [List.filter_eq_nil_iff]
    intro l hl
    rw [header_not_heading f ts lang l hl]
    simp
  rw [h1, List.nil_append, List.filter_flatten, List.map_map]
  have h2 : (List.filter isSectionHeading ∘ fun t => sectionBlock (splitLines analysisText) t) =
      fun t => ["## " ++ t] := by
    funext t
    exact filter_sectionBlock (splitLines analysisText) t
  rw [h2, flatten_map_singleton]

/-! ## Helper lemmas: Content Store Client retries -/

theorem storeRetryable_iff (e : ErrorKind) : storeRetryable e = true ↔ e = .Transient := by
  cases e <;> simp [storeRetryable]

theorem storeOp_retryContract {α : Type} (svc : Nat → Except ErrorKind α) :
    storeRetryContract (storeOp svc) svc := by
  rcases h0 : svc 0 with e0 | v0
  · cases hr0 : storeRetryable e0
    · have hres : storeOp svc = (.error e0, 1, []) := by
        simp [storeOp, h0, hr0]
      unfold storeRetryContract
      rw [hres]
      refine ⟨by simp [storeMaxAttempts], by simp [List.range_succ], ?_, ?_⟩
      · intro i hi
        have hi1 : i + 1 < 1 := hi
        omega
      · intro e he hne
        exact ⟨rfl, rfl⟩
    · have he0 : e0 = .Transient := (storeRetryable_iff e0).mp hr0
      rcases h1 : svc 1 with e1 | v1
      · cases hr1 : storeRetryable e1
        · have hres : storeOp svc = (.error e1, 2, [storeBackoffSeconds 0]) := by
            simp [storeOp, h0, hr0, h1, hr1]
          unfold storeRetryContract
          rw [hres]
          refine ⟨by simp [storeMaxAttempts], by simp [List.range_succ], ?_, ?_⟩
          · intro i hi
            have hi2 : i + 1 < 2 := hi
            have hi0 : i = 0 := by omega
            rw [hi0, h0, he0]
          · intro e he hne
            rw [h0] at he
            injection he with he
            rw [← he, he0] at hne
            exact absurd rfl hne
        · have he1 : e1 = .Transient := (storeRetryable_iff e1).mp hr1
          have hres : storeOp svc =
              (svc 2, 3, [storeBackoffSeconds 0, storeBackoffSeconds 1]) := by
            simp [storeOp, h0, hr0, h1, hr1]
          unfold storeRetryContract
          rw [hres]
          refine ⟨by simp [storeMaxAttempts], by simp [List.range_succ], ?_, ?_⟩
          · intro i hi
            have hi3 : i + 1 < 3 := hi
            have hi01 : i = 0 ∨ i = 1 := by omega
            rcases hi01 with rfl | rfl
            · rw [h0, he0]
            · rw [h1, he1]
          · intro e he hne
            rw [h0] at he
            injection he with he
            rw [← he, he0] at hne
            exact absurd rfl hne
      · have hres : storeOp svc = (.ok v1, 2, [storeBackoffSeconds 0]) := by
          simp [storeOp, h0, hr0, h1]
        unfold storeRetryContract
        rw [hres]
        refine ⟨by simp [storeMaxAttempts], by simp [List.range_succ], ?_, ?_⟩
        · intro i hi
          have hi2 : i + 1 < 2 := hi
          have hi0 : i = 0 := by omega
          rw [hi0, h0, he0]
        · intro e he hne
          rw [h0] at he
          injection he with he
          rw [← he, he0] at hne
          exact absurd rfl hne
  · have hres : storeOp svc = (.ok v0, 1, []) := by
      simp [storeOp, h0]
    unfold storeRetryContract
    rw [hres]
    refine ⟨by simp [storeMaxAttempts], by simp [List.range_succ], ?_, ?_⟩
    · intro i hi
      have hi1 : i + 1 < 1 := hi
      omega
    · intro e he hne
      rw [h0] at he
      exact Except.noConfusion he

/-! ## Helper lemmas: Model Client circuit breaker -/

theorem modelAttempts_not_ok (svc : Nat → ModelServiceResponse)
    (h : ∀ i text tok, svc i ≠ .ok text tok) :
    ∀ text tok, (modelAttempts svc).1 ≠ .ok text tok := by
  intro text tok
  rw [modelAttempts]
  by_cases h0 : modelRetryable (svc 0) = true
  · rw [if_pos h0]
    by_cases h1 : modelRetryable (svc 1) = true
    · rw [if_pos h1]
      exact h 2 text tok
    · rw [if_neg h1]
      exact h 1 text tok
  · rw [if_neg h0]
    exact h 0 text tok

theorem modelCall_closed_failure (coolDown now : Nat) (svc : Nat → ModelServiceResponse)
    (f : Nat) (h : ∀ i text tok, svc i ≠ .ok text tok) :
    modelCall coolDown { consecutiveFailures := f, openedAt := none } now svc =
      (.failure (responseError (modelAttempts svc).1),
       if circuitFailureThreshold ≤ f + 1 then
         { consecutiveFailures := f + 1, openedAt := some now }
       else { consecutiveFailures := f + 1, openedAt := none },
       (modelAttempts svc).2) := by
  have hcl : breakerOpen coolDown { consecutiveFailures := f, openedAt := none } now = false := rfl
  rw [modelCall, if_neg (by rw [hcl]; exact Bool.false_ne_true)]
  rcases hma : modelAttempts svc with ⟨r, n⟩
  cases r with
  | ok text tok =>
    have hno := modelAttempts_not_ok svc h text tok
    rw [hma] at hno
    exact absurd rfl hno
  | throttled => by_cases hth : circuitFailureThreshold ≤ f + 1 <;> simp [hth]
  | unavailable => by_cases hth : circuitFailureThreshold ≤ f + 1 <;> simp [hth]
  | badRequest => by_cases hth : circuitFailureThreshold ≤ f + 1 <;> simp [hth]

theorem modelCall_open (coolDown : Nat) (st : CircuitBreakerState) (now : Nat)
    (svc : Nat → ModelServiceResponse) (h : breakerOpen coolDown st now = true) :
    modelCall coolDown st now svc = (.failure .CircuitOpen, st, 0) := by
  rw [modelCall, if_pos h]

theorem breakerOpen_of_lt (coolDown t now f : Nat) (h : now < t + coolDown) :
    breakerOpen coolDown { consecutiveFailures := f, openedAt := some t } now = true := by
  simp only [breakerOpen]
  exact decide_eq_true h

theorem runModelCalls_open (coolDown t0 : Nat) (st : CircuitBreakerState)
    (hst : st.openedAt = some t0) :
    ∀ calls : List (Nat × (Nat → ModelServiceResponse)),
      (∀ c ∈ calls, c.1 < t0 + coolDown) →
      (runModelCalls coolDown st calls).1 = st ∧
      ∀ r ∈ (runModelCalls coolDown st calls).2, r = (.failure .CircuitOpen, 0) := by
  intro calls
  induction calls with
  | nil =>
    intro _
    exact ⟨rfl, by simp [runModelCalls]⟩
  | cons c rest ih =>
    intro hall
    rcases c with ⟨now, svc⟩
    have hnow : now < t0 + coolDown := hall (now, svc) (List.mem_cons_self _ _)
    have hopen : breakerOpen coolDown st now = true := by
      simp only [breakerOpen, hst]
      exact decide_eq_true hnow
    have hstep : modelCall coolDown st now svc = (.failure .CircuitOpen, st, 0) :=
      modelCall_open coolDown st now svc hopen
    obtain ⟨ih1, ih2⟩ := ih (fun c hc => hall c (List.mem_cons_of_mem _ hc))
    constructor
    · simp only [runModelCalls, hstep]
      exact ih1
    · simp only [runModelCalls, hstep]
      intro r hr
      rcases List.mem_cons.mp hr with rfl | hr
      · rfl
      · exact ih2 r hr

theorem fiveFailures_state (coolDown t1 t2 t3 t4 t5 : Nat)
    (s1 s2 s3 s4 s5 : Nat → ModelServiceResponse)
    (h1 : ∀ i text tok, s1 i ≠ .ok text tok)
    (h2 : ∀ i text tok, s2 i ≠ .ok text tok)
    (h3 : ∀ i text tok, s3 i ≠ .ok text tok)
    (h4 : ∀ i text tok, s4 i ≠ .ok text tok)
    (h5 : ∀ i text tok, s5 i ≠ .ok text tok) :
    (runModelCalls coolDown initialBreaker
        [(t1, s1), (t2, s2), (t3, s3), (t4, s4), (t5, s5)]).1 =
      { consecutiveFailures := 5, openedAt := some t5 } := by
  simp only [runModelCalls, initialBreaker]
  rw [modelCall_closed_failure coolDown t1 s1 0 h1]
  rw [if_neg (by decide)]
  rw [modelCall_closed_failure coolDown t2 s2 1 h2]
  rw [if_neg (by decide)]
  rw [modelCall_closed_failure coolDown t3 s3 2 h3]
  rw [if_neg (by decide)]
  rw [modelCall_closed_failure coolDown t4 s4 3 h4]
  rw [if_neg (by decide)]
  rw [modelCall_closed_failure coolDown t5 s5 4 h5]
  rw [if_pos (by decide)]

/-! ## Helper lemmas: the Pipeline Orchestrator -/

theorem runPipeline_not_unsupported (cfg : PipelineConfig) (req : AnalysisRequest)
    (fetchRes : Except StoreFault RetrievedContent) (modelRes : Except ModelFault String)
    (putRes : Except StoreFault Unit) (ts : String)
    (h : isSupportedType req.sourceKey = true) :
    (runPipeline cfg req fetchRes modelRes putRes ts).1.errorKind ≠
      some .UnsupportedType := by
  rcases fetchRes with e | content
  · cases e <;> simp [runPipeline, failRun, storeFaultKind]
  · by_cases hsz : content.sizeBytes ≤ cfg.maxSizeBytes
    · rcases modelRes with e | text
      · cases e <;> simp [runPipeline, h, hsz, failRun, modelFaultKind]
      · rcases hr : render text
            { filename := some req.sourceKey, timestamp := some ts,
              language := detectLanguage content.content req.sourceKey } with e | doc
        · simp [runPipeline, h, hsz, hr, failRun]
        · rcases putRes with e | u
          · cases e <;> simp [runPipeline, h, hsz, hr, failRun, storeFaultKind]
          · simp [runPipeline, h, hsz, hr]
    · simp [runPipeline, h, hsz, failRun]

/-! ## Claims -/

/-- C1: for every filename, isSupportedType returns true exactly when the
filename extension lies in the fixed allow-list, and that allow-list is the
same 25-suffix set the deployment configures on the EventBridge trigger, not
the 9-extension list of the design document. -/
theorem C1_supported_type_allow_list :
    (∀ filename : String,
        isSupportedType filename = true ↔ extensionOf filename ∈ s3EventRuleSuffixes)
    ∧ s3EventRuleSuffixes = supportedExtensions
    ∧ s3EventRuleSuffixes.length = 25
    ∧ isSupportedType "template.yaml" = true
    ∧ ".yaml" ∉ designDocFileTypes
    ∧ designDocFileTypes.length = 9 := by
  refine ⟨?_, rfl, by decide, by decide, by decide, by decide⟩
  intro filename
  rw [isSupportedType, ruleSuffixes_eq_supported]
  exact decide_eq_true_iff

/-- C2: once five consecutive Model Client calls have failed, the breaker is
open; the next call and every further call before the cool-down has elapsed
returns CircuitOpen at once, leaves the breaker unchanged, and issues zero
requests to the model service. -/
theorem C2_circuit_breaker_fails_fast (coolDown t1 t2 t3 t4 t5 : Nat)
    (s1 s2 s3 s4 s5 : Nat → ModelServiceResponse)
    (h1 : ∀ i text tok, s1 i ≠ .ok text tok)
    (h2 : ∀ i text tok, s2 i ≠ .ok text tok)
    (h3 : ∀ i text tok, s3 i ≠ .ok text tok)
    (h4 : ∀ i text tok, s4 i ≠ .ok text tok)
    (h5 : ∀ i text tok, s5 i ≠ .ok text tok)
    (st : CircuitBreakerState)
    (hst : st = (runModelCalls coolDown initialBreaker
      [(t1, s1), (t2, s2), (t3, s3), (t4, s4), (t5, s5)]).1) :
    st = { consecutiveFailures := 5, openedAt := some t5 }
    ∧ (∀ (now : Nat) (svc : Nat → ModelServiceResponse), now < t5 + coolDown →
        modelCall coolDown st now svc = (.failure .CircuitOpen, st, 0))
    ∧ (∀ calls : List (Nat × (Nat → ModelServiceResponse)),
        (∀ c ∈ calls, c.1 < t5 + coolDown) →
        (runModelCalls coolDown st calls).1 = st ∧
        ∀ r ∈ (runModelCalls coolDown st calls).2, r = (.failure .CircuitOpen, 0)) := by
  have hfive := fiveFailures_state coolDown t1 t2 t3 t4 t5 s1 s2 s3 s4 s5 h1 h2 h3 h4 h5
  rw [hst, hfive]
  refine ⟨rfl, ?_, ?_⟩
  · intro now svc hnow
    exact modelCall_open coolDown _ now svc (breakerOpen_of_lt coolDown t5 now 5 hnow)
  · exact runModelCalls_open coolDown t5 _ rfl

/-- C2 witness: with five Unavailable-only calls at instants one to five and a
cool-down of sixty, the call at instant ten fails fast with CircuitOpen and
issues no request. -/
theorem C2_circuit_breaker_fails_fast_witness :
    modelCall 60 { consecutiveFailures := 5, openedAt := some 5 } 10 alwaysUnavailable
      = (.failure .CircuitOpen, { consecutiveFailures := 5, openedAt := some 5 }, 0) := by
  have hne : ∀ i text tok, alwaysUnavailable i ≠ .ok text tok := by
    intro i text tok hcontra
    simp [alwaysUnavailable] at hcontra
  have h := C2_circuit_breaker_fails_fast 60 1 2 3 4 5
    alwaysUnavailable alwaysUnavailable alwaysUnavailable alwaysUnavailable alwaysUnavailable
    hne hne hne hne hne
    { consecutiveFailures := 5, openedAt := some 5 } (by decide)
  exact h.2.1 10 alwaysUnavailable (by decide)

/-- C3 counterexample: retrieved content over the ceiling for the unsupported
filename notes.exe fails with UnsupportedType, not PayloadTooLarge, because
the type check runs before the size check. -/
theorem C3_counterexample_unsupported_oversized :
    defaultConfig.maxSizeBytes < 2097152
    ∧ (runPipeline defaultConfig
        { sourceContainer := "in", sourceKey := "notes.exe", destinationContainer := "out" }
        (.ok { content := "MZ", sizeBytes := 2097152 }) (.ok "analysis") (.ok ())
        "t").1.errorKind ≠ some ErrorKind.PayloadTooLarge
    ∧ (runPipeline defaultConfig
        { sourceContainer := "in", sourceKey := "notes.exe", destinationContainer := "out" }
        (.ok { content := "MZ", sizeBytes := 2097152 }) (.ok "analysis") (.ok ())
        "t").1.errorKind = some ErrorKind.UnsupportedType := by
  refine ⟨by decide, by decide, by decide⟩

/-- C3 amended: for every retrieved content over the ceiling the run fails,
no model call and no write occur, and the kind is PayloadTooLarge whenever the
filename type is supported; an unsupported filename fails as UnsupportedType
before the size check. -/
theorem C3_oversized_never_reaches_model (cfg : PipelineConfig) (req : AnalysisRequest)
    (content : RetrievedContent) (modelRes : Except ModelFault String)
    (putRes : Except StoreFault Unit) (ts : String)
    (hsize : cfg.maxSizeBytes < content.sizeBytes) :
    (runPipeline cfg req (.ok content) modelRes putRes ts).1.status = .error
    ∧ (runPipeline cfg req (.ok content) modelRes putRes ts).2.modelCalls = 0
    ∧ (runPipeline cfg req (.ok content) modelRes putRes ts).2.writes = []
    ∧ (isSupportedType req.sourceKey = true →
        (runPipeline cfg req (.ok content) modelRes putRes ts).1.errorKind =
          some .PayloadTooLarge)
    ∧ ((runPipeline cfg req (.ok content) modelRes putRes ts).1.errorKind =
          some .PayloadTooLarge
       ∨ (runPipeline cfg req (.ok content) modelRes putRes ts).1.errorKind =
          some .UnsupportedType) := by
  have hsz : ¬ content.sizeBytes ≤ cfg.maxSizeBytes := by omega
  by_cases hsup : isSupportedType req.sourceKey = true
  · refine ⟨?_, ?_, ?_, fun _ => ?_, Or.inl ?_⟩ <;> simp [runPipeline, hsup, hsz, failRun]
  · have hsup' : isSupportedType req.sourceKey = false := by
      cases hx : isSupportedType req.sourceKey
      · rfl
      · exact absurd hx hsup
    refine ⟨?_, ?_, ?_, fun hc => absurd hc hsup, Or.inr ?_⟩ <;>
      simp [runPipeline, hsup', failRun]

/-- C3 witness: a supported oversized file fails with PayloadTooLarge. -/
theorem C3_oversized_never_reaches_model_witness :
    (runPipeline defaultConfig
      { sourceContainer := "in", sourceKey := "big.py", destinationContainer := "out" }
      (.ok { content := "x", sizeBytes := 1048577 }) (.ok "analysis") (.ok ())
      "t").1.errorKind = some ErrorKind.PayloadTooLarge := by
  have h := C3_oversized_never_reaches_model defaultConfig
    { sourceContainer := "in", sourceKey := "big.py", destinationContainer := "out" }
    { content := "x", sizeBytes := 1048577 } (.ok "analysis") (.ok ()) "t" (by decide)
  exact h.2.2.2.1 (by decide)

/-- C4: every rendered report is the six-line metadata header block followed
by exactly the five fixed second-level sections, in order, for every model
output text. -/
theorem C4_report_fixed_sections (analysisText f ts lang : String) :
    ∃ doc,
      render analysisText { filename := some f, timestamp := some ts, language := lang } =
        .ok doc
      ∧ doc.take 6 = headerLines f ts lang
      ∧ doc.filter isSectionHeading = sectionTitles.map (fun t => "## " ++ t)
      ∧ (doc.filter isSectionHeading).length = 5
      ∧ sectionTitles = ["Code Purpose", "Main Functions and Components",
          "Data Structures", "Dependencies and Imports", "Architectural Patterns"] := by
  refine ⟨headerLines f ts lang ++
      (sectionTitles.map (fun t => sectionBlock (splitLines analysisText) t)).flatten,
    rfl, ?_, render_headings analysisText f ts lang, ?_, rfl⟩
  · rw [List.take_append_of_le_length (by simp [headerLines])]
    simp [headerLines]
  · rw [render_headings analysisText f ts lang]
    simp [sectionTitles]

/-- C5: render is a pure function, so identical analysis text and metadata
give identical report documents. -/
theorem C5_render_deterministic (a1 a2 : String) (m1 m2 : ReportMetadata)
    (ha : a1 = a2) (hm : m1 = m2) : render a1 m1 = render a2 m2 := by
  rw [ha, hm]

/-- C5 witness: two renders of the same concrete input coincide. -/
theorem C5_render_deterministic_witness :
    render "## Code Purpose\nAdds numbers"
      { filename := some "calc.py", timestamp := some "2025-01-01T00:00:00Z",
        language := "Python" }
    = render "## Code Purpose\nAdds numbers"
      { filename := some "calc.py", timestamp := some "2025-01-01T00:00:00Z",
        language := "Python" } :=
  C5_render_deterministic _ _ _ _ rfl rfl

/-- C6: render only fails, with InvalidMetadata, when the filename or the
timestamp is missing; with both present it never raises, and every required
section absent from the model output appears in the document as its heading
followed by the placeholder line. -/
theorem C6_render_never_raises (analysisText : String) (md : ReportMetadata) :
    (∀ e, render analysisText md = .error e →
        e = .InvalidMetadata ∧ (md.filename = none ∨ md.timestamp = none))
    ∧ (∀ f ts, md.filename = some f → md.timestamp = some ts →
        ∀ e, render analysisText md ≠ .error e)
    ∧ (∀ doc, render analysisText md = .ok doc →
        ∀ t ∈ sectionTitles, extractSection (splitLines analysisText) t = none →
          ["## " ++ t, placeholderLine] <:+: doc) := by
  refine ⟨?_, ?_, ?_⟩
  · intro e he
    rcases hf : md.filename with _ | f
    · refine ⟨?_, Or.inl rfl⟩
      simp only [render, hf] at he
      injection he with he
      exact he.symm
    · rcases ht : md.timestamp with _ | ts
      · refine ⟨?_, Or.inr rfl⟩
        simp only [render, hf, ht] at he
        injection he with he
        exact he.symm
      · simp only [render, hf, ht] at he
        exact Except.noConfusion he
  · intro f ts hf ht e he
    simp only [render, hf, ht] at he
    exact Except.noConfusion he
  · intro doc hdoc t htmem hnone
    rcases hf : md.filename with _ | f
    · simp only [render, hf] at hdoc
      exact Except.noConfusion hdoc
    · rcases ht : md.timestamp with _ | ts
      · simp only [render, hf, ht] at hdoc
        exact Except.noConfusion hdoc
      · simp only [render, hf, ht] at hdoc
        injection hdoc with hdoc
        rw [← hdoc]
        apply infix_append_left
        have hblock : sectionBlock (splitLines analysisText) t =
            ["## " ++ t, placeholderLine] := by
          rw [sectionBlock, hnone]
          rfl
        rw [← hblock]
        apply infix_of_mem_flatten
        exact List.mem_map_of_mem _ htmem

/-- C6 witness: rendering an empty model output inserts the placeholder under
the Code Purpose heading of the concrete document. -/
theorem C6_render_never_raises_witness :
    ["## Code Purpose", placeholderLine] <:+:
      ["# Design Specification for calc.py", "",
       "**Analysis Date**: 2025-01-01", "**Original File**: calc.py",
       "**Programming Language**: Python", "",
       "## Code Purpose", "Not provided by analysis",
       "## Main Functions and Components", "Not provided by analysis",
       "## Data Structures", "Not provided by analysis",
       "## Dependencies and Imports", "Not provided by analysis",
       "## Architectural Patterns", "Not provided by analysis"] := by
  have h := (C6_render_never_raises ""
    { filename := some "calc.py", timestamp := some "2025-01-01",
      language := "Python" }).2.2
  exact h _ rfl "Code Purpose" (by simp [sectionTitles]) (by decide)

/-- C7: every Content Store Client fetch or put makes at most three attempts,
sleeps exactly the doubling backoff between consecutive attempts, retries only
after a Transient failure, and ends at once on a non-retryable first failure. -/
theorem C7_store_retry_policy (svcF : Nat → Except ErrorKind RetrievedContent)
    (svcP : Nat → Except ErrorKind Unit) :
    storeRetryContract (fetchOp svcF) svcF ∧ storeRetryContract (putOp svcP) svcP :=
  ⟨storeOp_retryContract svcF, storeOp_retryContract svcP⟩

/-- C7 witness: the retry contract at a service that always reports NotFound. -/
theorem C7_store_retry_policy_witness :
    storeRetryContract (fetchOp fun _ => .error ErrorKind.NotFound)
      (fun _ => .error ErrorKind.NotFound) :=
  (C7_store_retry_policy (fun _ => .error ErrorKind.NotFound) (fun _ => .ok ())).1

/-- C8: a run that ends in a failed state writes nothing to the destination
store, and any write that does occur carries a fully formatted document from a
successful run. -/
theorem C8_failed_run_writes_nothing (cfg : PipelineConfig) (req : AnalysisRequest)
    (fetchRes : Except StoreFault RetrievedContent) (modelRes : Except ModelFault String)
    (putRes : Except StoreFault Unit) (ts : String) :
    ((runPipeline cfg req fetchRes modelRes putRes ts).1.status = .error →
      (runPipeline cfg req fetchRes modelRes putRes ts).2.writes = [])
    ∧ (∀ w ∈ (runPipeline cfg req fetchRes modelRes putRes ts).2.writes,
        ∃ content text doc,
          fetchRes = .ok content ∧ modelRes = .ok text ∧ putRes = .ok () ∧
          render text
            { filename := some req.sourceKey, timestamp := some ts,
              language := detectLanguage content.content req.sourceKey } = .ok doc ∧
          w = (req.destinationContainer, outputKeyFor req.sourceKey ts, doc) ∧
          (runPipeline cfg req fetchRes modelRes putRes ts).1.status = .success) := by
  rcases fetchRes with e | content
  · constructor
    · intro _
      simp [runPipeline, failRun]
    · intro w hw
      simp [runPipeline, failRun] at hw
  · by_cases hsup : isSupportedType req.sourceKey = true
    · by_cases hsz : content.sizeBytes ≤ cfg.maxSizeBytes
      · rcases modelRes with e | text
        · constructor
          · intro _
            simp [runPipeline, hsup, hsz, failRun]
          · intro w hw
            simp [runPipeline, hsup, hsz, failRun] at hw
        · rcases hr : render text
              { filename := some req.sourceKey, timestamp := some ts,
                language := detectLanguage content.content req.sourceKey } with e | doc
          · constructor
            · intro _
              simp [runPipeline, hsup, hsz, hr, failRun]
            · intro w hw
              simp [runPipeline, hsup, hsz, hr, failRun] at hw
          · rcases putRes with e | u
            · constructor
              · intro _
                simp [runPipeline, hsup, hsz, hr, failRun]
              · intro w hw
                simp [runPipeline, hsup, hsz, hr, failRun] at hw
            · cases u
              constructor
              · intro hst
                exfalso
                simp [runPipeline, hsup, hsz, hr] at hst
              · intro w hw
                simp [runPipeline, hsup, hsz, hr] at hw
                exact ⟨content, text, doc, rfl, rfl, rfl, hr, hw,
                  by simp [runPipeline, hsup, hsz, hr]⟩
      · constructor
        · intro _
          simp [runPipeline, hsup, hsz, failRun]
        · intro w hw
          simp [runPipeline, hsup, hsz, failRun] at hw
    · have hsup' : isSupportedType req.sourceKey = false := by
        cases hx : isSupportedType req.sourceKey
        · rfl
        · exact absurd hx hsup
      constructor
      · intro _
        simp [runPipeline, hsup', failRun]
      · intro w hw
        simp [runPipeline, hsup', failRun] at hw

/-- C8 witness: the failed notes.exe run writes nothing. -/
theorem C8_failed_run_writes_nothing_witness :
    (runPipeline defaultConfig
      { sourceContainer := "in", sourceKey := "notes.exe", destinationContainer := "out" }
      (.ok { content := "MZ", sizeBytes := 2 }) (.ok "analysis") (.ok ())
      "t").2.writes = [] :=
  (C8_failed_run_writes_nothing defaultConfig
    { sourceContainer := "in", sourceKey := "notes.exe", destinationContainer := "out" }
    (.ok { content := "MZ", sizeBytes := 2 }) (.ok "analysis") (.ok ()) "t").1 (by decide)

/-- C9: the EventBridge rule forwards an Object Created event of the input
bucket exactly when the object key ends with one of the 25 configured
suffixes; that suffix test coincides with the validator allow-list, a key of
any other extension is never forwarded, and a forwarded key can never fail
validation with UnsupportedType. -/
theorem C9_event_rule_filters (b : String) (e : S3Event) :
    (s3EventRuleMatches b e = true ↔
      (e.source = "aws.s3" ∧ e.detailType = "Object Created" ∧ e.bucketName = b ∧
        s3EventRuleSuffixes.any (fun s => keyEndsWith e.objectKey s) = true))
    ∧ s3EventRuleSuffixes.any (fun s => keyEndsWith e.objectKey s) =
        isSupportedType e.objectKey
    ∧ (isSupportedType e.objectKey = false → s3EventRuleMatches b e = false)
    ∧ (s3EventRuleMatches b e = true →
        ∀ cfg fetchRes modelRes putRes ts dest,
          (runPipeline cfg
              { sourceContainer := e.bucketName, sourceKey := e.objectKey,
                destinationContainer := dest } fetchRes modelRes putRes ts).1.errorKind
            ≠ some .UnsupportedType) := by
  have hiff : s3EventRuleMatches b e = true ↔
      (e.source = "aws.s3" ∧ e.detailType = "Object Created" ∧ e.bucketName = b ∧
        s3EventRuleSuffixes.any (fun s => keyEndsWith e.objectKey s) = true) := by
    simp [s3EventRuleMatches, Bool.and_eq_true, beq_iff_eq, and_assoc]
  have hbridge := any_keyEndsWith_eq_isSupportedType e.objectKey
  refine ⟨hiff, hbridge, ?_, ?_⟩
  · intro hfalse
    cases hm : s3EventRuleMatches b e
    · rfl
    · exfalso
      have hc := (hiff.mp hm).2.2.2
      rw [hbridge, hfalse] at hc
      exact Bool.false_ne_true hc
  · intro hm cfg fetchRes modelRes putRes ts dest
    have hsup : isSupportedType e.objectKey = true := by
      have hc := (hiff.mp hm).2.2.2
      rw [hbridge] at hc
      exact hc
    exact runPipeline_not_unsupported cfg _ fetchRes modelRes putRes ts hsup

/-- C9 witness: an upload of notes.exe is not forwarded by the rule. -/
theorem C9_event_rule_filters_witness :
    s3EventRuleMatches "bucket"
      { source := "aws.s3", detailType := "Object Created",
        bucketName := "bucket", objectKey := "notes.exe" } = false :=
  (C9_event_rule_filters "bucket"
    { source := "aws.s3", detailType := "Object Created",
      bucketName := "bucket", objectKey := "notes.exe" }).2.2.1 (by decide)

/-- C10 counterexample: at environment dev and a concrete account the two
stack definitions synthesize different templates. -/
theorem C10_counterexample_stacks_not_equivalent :
    libStackSummary "dev" "123456789012" ≠ appendedStackSummary := by
  decide

/-- C10 amended: the two KiroStrandsStack definitions are not equivalent: the
lib stack scopes the S3 actions to the bucket ARNs and defines the buckets and
the EventBridge rule, while the appended copy grants the same actions on every
resource and lacks them; the embedded unit test expectation matches the
appended copy. -/
theorem C10_stacks_differ (env acct : String) :
    libStackSummary env acct ≠ appendedStackSummary
    ∧ libStackS3Policy env acct ≠ appendedStackS3Policy
    ∧ appendedStackS3Policy.resources = testExpectedS3Resources
    ∧ (libStackS3Policy env acct).actions = appendedStackS3Policy.actions := by
  refine ⟨?_, ?_, rfl, rfl⟩
  · intro h
    have hb := congrArg StackSummary.hasS3EventRule h
    simp [libStackSummary, appendedStackSummary] at hb
  · intro h
    have hl := congrArg (fun p => p.resources.length) h
    simp [libStackS3Policy, appendedStackS3Policy] at hl

/-- C10 witness: the policies differ at a concrete environment and account. -/
theorem C10_stacks_differ_witness :
    libStackS3Policy "prod" "000000000000" ≠ appendedStackS3Policy :=
  (C10_stacks_differ "prod" "000000000000").2.1

end KiroStrands
